import Mathlib

/-!
Verification development for the Greek treebank query engine
(`engine.py`: `GreekTextParser`, `GreekQueryEngine`).

The Python code is shallowly embedded over `List Char` for strings and an
explicit word store (`List Word`) in which a word's identity is its index;
Python object references (including the mutable `children` lists and the
in-place mutation performed by `GreekQueryEngine.__init__` and
`_handle_adjacent`) are modelled by passing the store / engine state
explicitly.  All definitions are executable and structurally recursive so
that concrete runs evaluate inside the kernel.
-/

namespace Pseudw

/-! ## Character-level helpers for the regex-driven selector parsing

`engine.py` drives simple-selector parsing with `re` patterns.  Every
pattern used ( `\[(\w+)=([^]]+)\]`, `:before\(([^)]+)\)`,
`:after\(([^)]+)\)`, `:(\w+)`, `:\w+|\[[^]]+\]` ) is of the
"literal chars plus maximal greedy character-class runs" form, for which
Python's leftmost/greedy matching is equivalent to the deterministic
maximal-run scanners below: a greedy `\w+` or `[^]]+` run followed by a
character outside the class can only match maximally, so no backtracking
arises. -/

/-- Python `\w` (`re` default, unicode): ASCII letters, digits, underscore;
non-ASCII word characters (in particular all Greek letters) are
approximated as every code point above 127. -/
def isWordChar (c : Char) : Bool :=
  c.isAlpha || c.isDigit || c = '_' || 127 < c.toNat

/-- Whitespace stripped by Python's `str.strip()` (ASCII part). -/
def isPySpace (c : Char) : Bool :=
  c = ' ' || c = '\t' || c = '\n' || c = '\r' || c = '\x0b' || c = '\x0c'

/-- Python `s.strip()`. -/
def strip (s : List Char) : List Char :=
  ((s.dropWhile isPySpace).reverse.dropWhile isPySpace).reverse

/-- Does `pat` occur at the very start of `s`? -/
def leadsWith : List Char → List Char → Bool
  | [], _ => true
  | _ :: _, [] => false
  | p :: ps, c :: cs => p = c && leadsWith ps cs

/-- Python `pat in s` (substring containment). -/
def containsSub (pat : List Char) : List Char → Bool
  | [] => leadsWith pat []
  | c :: t => leadsWith pat (c :: t) || containsSub pat t

/-- Python `s.split(sep)` for a non-empty separator: non-overlapping,
left-to-right.  `k` counts separator characters still to be skipped after
a separator was recognised; `acc` is the current piece, reversed. -/
def splitGo (sep : List Char) : Nat → List Char → List Char → List (List Char)
  | k + 1, acc, _ :: t => splitGo sep k acc t
  | _, acc, [] => [acc.reverse]
  | 0, acc, c :: t =>
    if leadsWith sep (c :: t) then
      acc.reverse :: splitGo sep (sep.length - 1) [] t
    else
      splitGo sep 0 (c :: acc) t

/-- Python `s.split(sep)`.  (Python raises on an empty separator; the
engine only ever splits on `","`, `" > "`, `" + "`, `" ~ "`.) -/
def splitOnSep (sep s : List Char) : List (List Char) :=
  if sep.isEmpty then [s] else splitGo sep 0 [] s

/-- Python `s.replace(pat, "")` for a non-empty `pat`: remove every
non-overlapping occurrence, left to right. -/
def removeSubGo (pat : List Char) : Nat → List Char → List Char
  | k + 1, _ :: t => removeSubGo pat k t
  | _, [] => []
  | 0, c :: t =>
    if pat ≠ [] ∧ leadsWith pat (c :: t) then
      removeSubGo pat (pat.length - 1) t
    else
      c :: removeSubGo pat 0 t

/-- Python `s.replace(pat, "")`. -/
def removeSub (pat s : List Char) : List Char :=
  removeSubGo pat 0 s

/-- One attempt of `\[(\w+)=([^]]+)\]` anchored at the start of the input:
`[`, a maximal non-empty `\w` run (the name), `=`, a maximal non-empty
run of non-`]` characters (the value), `]`.  Returns the two groups and
the input remaining after the match. -/
def matchAttrAt : List Char → Option (List Char × List Char × List Char)
  | '[' :: rest =>
    let name := rest.takeWhile isWordChar
    (match rest.dropWhile isWordChar with
     | '=' :: r2 =>
       if name = [] then none
       else
         let value := r2.takeWhile (fun c => c ≠ ']')
         (match r2.dropWhile (fun c => c ≠ ']') with
          | ']' :: after => if value = [] then none else some (name, value, after)
          | _ => none)
     | _ => none)
  | _ => none

/-- Python `re.search(r'\[(\w+)=([^]]+)\]', s)`: groups of the leftmost
match, if any. -/
def searchAttr : List Char → Option (List Char × List Char)
  | [] => none
  | c :: t =>
    match matchAttrAt (c :: t) with
    | some (n, v, _) => some (n, v)
    | none => searchAttr t

/-- Python `re.sub(r'\[(\w+)=([^]]+)\]', '', s)`: delete every
non-overlapping leftmost match.  `k` counts characters of a recognised
match still to be skipped. -/
def subAttrGo : Nat → List Char → List Char
  | k + 1, _ :: t => subAttrGo k t
  | _, [] => []
  | 0, c :: t =>
    match matchAttrAt (c :: t) with
    | some (_, _, after) => subAttrGo ((c :: t).length - after.length - 1) t
    | none => c :: subAttrGo 0 t

def subAttr (s : List Char) : List Char := subAttrGo 0 s

/-- One attempt of `pat ++ "(" ... ")"` style patterns
(`:before\(([^)]+)\)` with `pat = ":before("`, likewise `:after(`)
anchored at the start: the literal prefix, a maximal non-empty run of
non-`)` characters (the group), `)`. -/
def matchInnerAt (pat s : List Char) : Option (List Char × List Char) :=
  if leadsWith pat s then
    let r := s.drop pat.length
    let inner := r.takeWhile (fun c => c ≠ ')')
    match r.dropWhile (fun c => c ≠ ')') with
    | ')' :: after => if inner = [] then none else some (inner, after)
    | _ => none
  else none

/-- Leftmost match group of the `pat(...)` pattern, Python `re.search`. -/
def searchInner (pat : List Char) : List Char → Option (List Char)
  | [] => none
  | c :: t =>
    match matchInnerAt pat (c :: t) with
    | some (inner, _) => some inner
    | none => searchInner pat t

/-- Python `re.sub` deleting every match of the `pat(...)` pattern. -/
def subInnerGo (pat : List Char) : Nat → List Char → List Char
  | k + 1, _ :: t => subInnerGo pat k t
  | _, [] => []
  | 0, c :: t =>
    match matchInnerAt pat (c :: t) with
    | some (_, after) => subInnerGo pat ((c :: t).length - after.length - 1) t
    | none => c :: subInnerGo pat 0 t

def subInner (pat s : List Char) : List Char := subInnerGo pat 0 s

/-- One attempt of `:(\w+)` anchored at the start: `:` then a maximal
non-empty `\w` run (the token). -/
def matchPseudoAt : List Char → Option (List Char × List Char)
  | ':' :: rest =>
    let tok := rest.takeWhile isWordChar
    if tok = [] then none else some (tok, rest.dropWhile isWordChar)
  | _ => none

/-- Python `re.findall(r':(\w+)', s)`: tokens of every non-overlapping
leftmost match, left to right. -/
def findallPseudoGo : Nat → List Char → List (List Char)
  | k + 1, _ :: t => findallPseudoGo k t
  | _, [] => []
  | 0, c :: t =>
    match matchPseudoAt (c :: t) with
    | some (tok, after) => tok :: findallPseudoGo ((c :: t).length - after.length - 1) t
    | none => findallPseudoGo 0 t

def findallPseudo (s : List Char) : List (List Char) := findallPseudoGo 0 s

/-- One attempt of `\[[^]]+\]` anchored at the start (second alternative of
the final `:\w+|\[[^]]+\]` sub); returns the remaining input. -/
def matchBracketAt : List Char → Option (List Char)
  | '[' :: rest =>
    let inner := rest.takeWhile (fun c => c ≠ ']')
    (match rest.dropWhile (fun c => c ≠ ']') with
     | ']' :: after => if inner = [] then none else some after
     | _ => none)
  | _ => none

/-- Python `re.sub(r':\w+|\[[^]]+\]', '', s)`.  The two alternatives start
with distinct characters (`:` vs `[`), so alternative priority is
irrelevant. -/
def subAltGo : Nat → List Char → List Char
  | k + 1, _ :: t => subAltGo k t
  | _, [] => []
  | 0, c :: t =>
    match matchPseudoAt (c :: t) with
    | some (_, after) => subAltGo ((c :: t).length - after.length - 1) t
    | none =>
      match matchBracketAt (c :: t) with
      | some after => subAltGo ((c :: t).length - after.length - 1) t
      | none => c :: subAltGo 0 t

def subAlt (s : List Char) : List Char := subAltGo 0 s

/-! ## Data model: `Word` (engine.py, `@dataclass class Word`)

A `Word` value is the immutable part of a Python `Word` object plus its
`children` list; object identity is the word's index in the surrounding
store (`List Word`), and `children` holds such indices, matching the
Python lists of object references. -/

structure Word where
  form : String
  «lemma» : String
  id : Int
  parent_id : Int
  sentence_id : Int
  relation : String
  part_of_speech : Option String := none
  person : Option String := none
  number : Option String := none
  tense : Option String := none
  mood : Option String := none
  voice : Option String := none
  gender : Option String := none
  «case» : Option String := none
  degree : Option String := none
  children : List Nat := []
  deriving Repr, DecidableEq, Inhabited

/-! ## Feature decoder (engine.py, `GreekTextParser.postag_mappings`,
`parse_postag`) -/

/-- `postag_mappings['part_of_speech']`; `Dict.get` yields `None` for an
unmapped character. -/
def posTable : Char → Option String := fun c =>
  match c with
  | 'n' => some "noun" | 'v' => some "verb" | 't' => some "participle"
  | 'a' => some "adjective" | 'd' => some "adverb" | 'l' => some "article"
  | 'g' => some "particle" | 'c' => some "conjunction" | 'r' => some "preposition"
  | 'p' => some "pronoun" | 'm' => some "numeral" | 'i' => some "interjection"
  | 'e' => some "exclamation" | 'u' => some "punctuation" | 'x' => some "irregular"
  | _ => none

/-- `postag_mappings['person']`. -/
def personTable : Char → Option String := fun c =>
  match c with
  | '1' => some "first" | '2' => some "second" | '3' => some "third"
  | _ => none

/-- `postag_mappings['number']`. -/
def numberTable : Char → Option String := fun c =>
  match c with
  | 's' => some "singular" | 'd' => some "dual" | 'p' => some "plural"
  | _ => none

/-- `postag_mappings['tense']`. -/
def tenseTable : Char → Option String := fun c =>
  match c with
  | 'p' => some "present" | 'i' => some "imperfect" | 'r' => some "perfect"
  | 'l' => some "pluperfect" | 't' => some "future perfect" | 'f' => some "future"
  | 'a' => some "aorist"
  | _ => none

/-- `postag_mappings['mood']`. -/
def moodTable : Char → Option String := fun c =>
  match c with
  | 'i' => some "indicative" | 's' => some "subjunctive" | 'o' => some "optative"
  | 'n' => some "infinitive" | 'm' => some "imperative" | 'd' => some "gerund"
  | 'g' => some "gerundive"
  | _ => none

/-- `postag_mappings['voice']`. -/
def voiceTable : Char → Option String := fun c =>
  match c with
  | 'a' => some "active" | 'p' => some "passive" | 'm' => some "middle"
  | 'e' => some "middle-passive"
  | _ => none

/-- `postag_mappings['gender']`. -/
def genderTable : Char → Option String := fun c =>
  match c with
  | 'm' => some "masculine" | 'f' => some "feminine" | 'n' => some "neuter"
  | _ => none

/-- `postag_mappings['case']`. -/
def caseTable : Char → Option String := fun c =>
  match c with
  | 'n' => some "nominative" | 'g' => some "genitive" | 'd' => some "dative"
  | 'a' => some "accusative" | 'v' => some "vocative" | 'l' => some "locative"
  | _ => none

/-- `postag_mappings['degree']`. -/
def degreeTable : Char → Option String := fun c =>
  match c with
  | 'c' => some "comparative" | 's' => some "superlative"
  | _ => none

/-- Result record of `parse_postag`: one optional value per category,
in the order of the `mappings` list of `parse_postag`. -/
structure Features where
  part_of_speech : Option String
  person : Option String
  number : Option String
  tense : Option String
  mood : Option String
  voice : Option String
  gender : Option String
  «case» : Option String
  degree : Option String
  deriving Repr, DecidableEq

/-- Category accessor by the positional index used in `parse_postag`. -/
def Features.get (f : Features) : Nat → Option String
  | 0 => f.part_of_speech
  | 1 => f.person
  | 2 => f.number
  | 3 => f.tense
  | 4 => f.mood
  | 5 => f.voice
  | 6 => f.gender
  | 7 => f.«case»
  | 8 => f.degree
  | _ => none

/-- Lookup table of the category at positional index `n`. -/
def tableOf : Nat → Char → Option String
  | 0 => posTable
  | 1 => personTable
  | 2 => numberTable
  | 3 => tenseTable
  | 4 => moodTable
  | 5 => voiceTable
  | 6 => genderTable
  | 7 => caseTable
  | 8 => degreeTable
  | _ => fun _ => none

/-- Python `postag.ljust(9, '-')` applied only when the input is shorter
than nine characters, exactly as in `parse_postag`. -/
def padTo9 (s : List Char) : List Char :=
  if s.length < 9 then s ++ List.replicate (9 - s.length) '-' else s

/-- `GreekTextParser.parse_postag`: pad, then decode one character per
category; `-` means absent, and an unmapped character also decodes to
`none` (Python `dict.get` default).  Index access `postag[i]` is total
here because the padded string has length at least nine; `getD` with a
dummy `'-'` is therefore exact. -/
def parse_postag (postag : List Char) : Features :=
  let p := padTo9 postag
  let getf := fun (table : Char → Option String) (i : Nat) =>
    let c := p.getD i '-'
    if c ≠ '-' then table c else none
  { part_of_speech := getf posTable 0
    person := getf personTable 1
    number := getf numberTable 2
    tense := getf tenseTable 3
    mood := getf moodTable 4
    voice := getf voiceTable 5
    gender := getf genderTable 6
    «case» := getf caseTable 7
    degree := getf degreeTable 8 }

/-! ## Corpus builder (engine.py, `GreekTextParser.xml_to_words`)

XML extraction itself (`xml.etree.ElementTree`) is an external library;
a document is modelled as what `xml_to_words` reads from it: per
`sentence` element an integer id and the list of its `word` elements'
attribute values. -/

/-- The attributes `xml_to_words` reads from one `word` element.
`id` is required by the code (`int(word_node.get('id'))`); the others
default (`''` resp. `0`) when absent. -/
structure WordAttrs where
  lemma? : Option String := none
  id : Int
  head? : Option Int := none
  form? : Option String := none
  relation? : Option String := none
  postag? : Option String := none
  deriving Repr, DecidableEq

/-- Python `lemma.replace('1', '')`: every occurrence of the single
character `'1'` is removed (single-character pattern, so non-overlapping
occurrence removal is character-wise deletion). -/
def replace1 : List Char → List Char
  | [] => []
  | c :: t => if c = '1' then replace1 t else c :: replace1 t

/-- Construction of one `Word` from one `word` element inside the
sentence with id `sid` (body of the inner loop of `xml_to_words`). -/
def mkWord (sid : Int) (a : WordAttrs) : Word :=
  let features := parse_postag (a.postag?.getD "").data
  { form := a.form?.getD ""
    «lemma» := ⟨replace1 (a.lemma?.getD "").data⟩
    id := a.id
    parent_id := a.head?.getD 0
    sentence_id := sid
    relation := a.relation?.getD ""
    part_of_speech := features.part_of_speech
    person := features.person
    number := features.number
    tense := features.tense
    mood := features.mood
    voice := features.voice
    gender := features.gender
    «case» := features.«case»
    degree := features.degree
    children := [] }

/-- `GreekTextParser.xml_to_words`: nested loops over sentences and their
words, appending in encounter order. -/
def xmlToWords (doc : List (Int × List WordAttrs)) : List Word :=
  doc.flatMap (fun s => s.2.map (mkWord s.1))

/-! ## Engine construction (engine.py, `GreekQueryEngine.__init__`) -/

/-- Replace the element at index `i` (no-op when out of range); used to
model in-place mutation of one word object in the store. -/
def modifyAt (l : List α) (i : Nat) (f : α → α) : List α :=
  match l, i with
  | [], _ => []
  | x :: t, 0 => f x :: t
  | x :: t, n + 1 => x :: modifyAt t n f

/-- The dict comprehension `{word.id: word for word in words}`: later
entries overwrite earlier ones, so a key maps to the LAST index carrying
that id.  `none` models absence of the key. -/
def lastIdxWithId (ws : List Word) (k : Int) : Option Nat :=
  match ws with
  | [] => none
  | w :: t =>
    match lastIdxWithId t k with
    | some j => some (j + 1)
    | none => if w.id = k then some 0 else none

/-- One step of the linking pass: `if word.parent_id in self.words_by_id:
parent.children.append(word)`.  `word.parent_id` is read from the input
list `ws`: the linking pass only ever writes `children`, never
`parent_id`, so the objects iterated over carry their original ids and
parent ids throughout. -/
def processOne (ws st : List Word) (i : Nat) : List Word :=
  match lastIdxWithId ws (ws.getD i default).parent_id with
  | some p => modifyAt st p (fun pw => { pw with children := pw.children ++ [i] })
  | none => st

/-- The linking pass over the given iteration order. -/
def linkList (ws : List Word) : List Word → List Nat → List Word
  | st, [] => st
  | st, i :: r => linkList ws (processOne ws st i) r

/-- The full `__init__` linking pass: iterate the words in list order. -/
def linkChildren (ws : List Word) : List Word :=
  linkList ws ws (List.range ws.length)

/-- One step of the sentence-grouping loop: append index `i` to the entry
of key `k`, creating the entry at the end on first occurrence (Python
dict insertion order). -/
def addToGroup (g : List (Int × List Nat)) (k : Int) (i : Nat) : List (Int × List Nat) :=
  match g with
  | [] => [(k, [i])]
  | (k', l) :: t => if k' = k then (k', l ++ [i]) :: t else (k', l) :: addToGroup t k i

/-- `self.words_by_sentence`, built by the first `__init__` loop. -/
def groupBySentence (ws : List Word) : List (Int × List Nat) :=
  (List.range ws.length).foldl (fun g i => addToGroup g (ws.getD i default).sentence_id i) []

/-- Engine state: the word store (index = object identity), `self.words`
as indices in list order, and `self.words_by_sentence` as an association
list in dict insertion order.  `self.words_by_id` maps ids to word
references; its content is recovered by `Engine.wordsById` below. -/
structure Engine where
  store : List Word
  words : List Nat
  wordsBySentence : List (Int × List Nat)
  deriving Repr, DecidableEq

/-- `GreekQueryEngine.__init__ (words)`.  The sentence grouping is built
before the linking pass; both only read ids / sentence ids, which the
linking pass never writes, so building the grouping from the input list
is exact. -/
def engineInit (ws : List Word) : Engine :=
  { store := linkChildren ws
    words := List.range ws.length
    wordsBySentence := groupBySentence ws }

/-- `self.words_by_id[k]` as a word reference (store index).  The dict is
built from the input words before linking, and linking writes only
`children`, never `id`, so the id-keyed last-wins lookup over the store
coincides with the Python dict. -/
def Engine.wordsById (e : Engine) (k : Int) : Option Nat :=
  lastIdxWithId e.store k

/-- `self.words_by_sentence.get(sentence_id, [])`. -/
def lookupSentence (e : Engine) (k : Int) : List Nat :=
  ((e.wordsBySentence.find? (fun kv => kv.1 = k)).map Prod.snd).getD []

/-! ## Simple-selector matching (engine.py, `_word_matches_selector`,
`_matches_linguistic_feature`, `_check_word_order_condition`) -/

/-- Python `getattr(word, name)` restricted to string-valued results.
`form`, `lemma`, `relation` are strings; the nine feature attributes are
strings or `None`.  The attributes `id`, `parent_id`, `sentence_id`
(ints) and `children` (a list) exist but can never compare equal to the
selector's string value, and an unknown name fails `hasattr`; all of
these behave exactly like an absent string attribute in
`_word_matches_selector`, hence `none`. -/
def Word.attrGet (w : Word) (name : List Char) : Option (List Char) :=
  if name = "form".data then some w.form.data
  else if name = "lemma".data then some w.«lemma».data
  else if name = "relation".data then some w.relation.data
  else if name = "part_of_speech".data then w.part_of_speech.map String.data
  else if name = "person".data then w.person.map String.data
  else if name = "number".data then w.number.map String.data
  else if name = "tense".data then w.tense.map String.data
  else if name = "mood".data then w.mood.map String.data
  else if name = "voice".data then w.voice.map String.data
  else if name = "gender".data then w.gender.map String.data
  else if name = "case".data then w.«case».map String.data
  else if name = "degree".data then w.degree.map String.data
  else none

/-- `_matches_linguistic_feature`: the token equals the value of at least
one of the nine feature attributes (in the order of the `attributes`
list; `None` never equals a string). -/
def matchesLinguisticFeature (w : Word) (tok : List Char) : Bool :=
  [w.part_of_speech, w.person, w.number, w.tense, w.mood,
   w.voice, w.gender, w.«case», w.degree].any
    (fun ov => ov.map String.data = some tok)

def rootTok : List Char := ":root".data
def beforePat : List Char := ":before(".data
def afterPat : List Char := ":after(".data

/-- `_word_matches_selector`, fuel-indexed.  The only recursion is through
`:before(X)` / `:after(X)`, whose inner selector `X` is at least nine
characters shorter than the enclosing selector (it sits inside
`:before(...)`), so a fuel of `selector.length + 1` at the top level is
never exhausted and the fuel-0 branch is unreachable.
`_check_word_order_condition` is inlined at its two call sites: it
collects the words of the same sentence matching the inner selector and
compares ids in the requested direction. -/
def wmStep (e : Engine) (recM : Word → List Char → Bool) (w : Word) (sel : List Char) : Bool :=
  -- attribute selector [attr=value]: `re.search` finds the first
  -- occurrence only; that one must match, then every occurrence is
  -- stripped by `re.sub`.
  let cont1 : Option (List Char) :=
    match searchAttr sel with
    | some (n, v) => if w.attrGet n = some v then some (subAttr sel) else none
    | none => some sel
  match cont1 with
  | none => false
  | some sel1 =>
    -- :root pseudo-selector
    let cont2 : Option (List Char) :=
      if containsSub rootTok sel1 then
        if w.parent_id ≠ 0 ∨ w.relation = "AuxK" then none
        else some (removeSub rootTok sel1)
      else some sel1
    match cont2 with
    | none => false
    | some sel2 =>
      -- :before(...) pseudo-selector
      let cont3 : Option (List Char) :=
        match searchInner beforePat sel2 with
        | some inner =>
          let sws := lookupSentence e w.sentence_id
          let targets := sws.filter (fun j => recM (e.store.getD j default) inner)
          if targets.any (fun j => w.id < (e.store.getD j default).id) then
            some (subInner beforePat sel2)
          else none
        | none => some sel2
      match cont3 with
      | none => false
      | some sel3 =>
        -- :after(...) pseudo-selector
        let cont4 : Option (List Char) :=
          match searchInner afterPat sel3 with
          | some inner =>
            let sws := lookupSentence e w.sentence_id
            let targets := sws.filter (fun j => recM (e.store.getD j default) inner)
            if targets.any (fun j => (e.store.getD j default).id < w.id) then
              some (subInner afterPat sel3)
            else none
          | none => some sel3
        match cont4 with
        | none => false
        | some sel4 =>
          -- remaining :token pseudo-selectors, then bare lemma text
          if (findallPseudo sel4).all (fun tok => matchesLinguisticFeature w tok) then
            let lemmaParts := strip (subAlt sel4)
            if lemmaParts = [] then true else decide (w.«lemma».data = lemmaParts)
          else false

/-- Fuel-indexed recursion: each `:before(X)` / `:after(X)` inner match
runs with one unit of fuel less. -/
def wmGo (e : Engine) : Nat → Word → List Char → Bool
  | 0 => fun _ _ => false
  | fuel + 1 => wmStep e (wmGo e fuel)

/-- `_word_matches_selector(word, selector)`. -/
def wordMatchesSelector (e : Engine) (w : Word) (sel : List Char) : Bool :=
  wmGo e (sel.length + 1) w sel

/-! ## Query dispatch (engine.py, `query` and the combinator handlers) -/

/-- `_match_single_selector`: collect (references to) every word of
`self.words` matching the selector. -/
def matchSingle (e : Engine) (sel : List Char) : List Nat :=
  e.words.filter (fun i => wordMatchesSelector e (e.store.getD i default) sel)

/-- `_handle_parent_child`: split on " > "; other than exactly two parts
returns `[]`; else match parents over the whole corpus and return their
children matching the child selector. -/
def handleParentChild (e : Engine) (sel : List Char) : List Nat :=
  match splitOnSep " > ".data sel with
  | [a, b] =>
    let parents := matchSingle e (strip a)
    parents.flatMap (fun p =>
      (e.store.getD p default).children.filter
        (fun c => wordMatchesSelector e (e.store.getD c default) (strip b)))
  | _ => []

/-- Stable insertion of `x` into an already-sorted run, ascending by the
id of the referenced word (equal keys keep earlier elements first). -/
def insSorted (store : List Word) (x : Nat) : List Nat → List Nat
  | [] => [x]
  | y :: t =>
    if (store.getD x default).id < (store.getD y default).id then x :: y :: t
    else y :: insSorted store x t

/-- Python `sentence_words.sort(key=lambda w: w.id)`: stable ascending
sort by id, as a left fold of stable insertions. -/
def sortByIdKey (store : List Word) (l : List Nat) : List Nat :=
  l.foldl (fun acc x => insSorted store x acc) []

/-- One adjacency window test: the first `parts.length` words of `l`
match the (stripped) parts position by position. -/
def windowMatch (e : Engine) (parts : List (List Char)) (l : List Nat) : Bool :=
  (parts.zip l).all (fun pj => wordMatchesSelector e (e.store.getD pj.2 default) (strip pj.1))

/-- The window loop `for i in range(len(sentence_words) - len(parts) + 1)`
over one (sorted) sentence: every window whose members match the parts in
order contributes the whole slice `sentence_words[i : i + len(parts)]`. -/
def adjWindows (e : Engine) (parts : List (List Char)) : List Nat → List Nat
  | [] => []
  | x :: t =>
    (if parts.length ≤ (x :: t).length ∧ windowMatch e parts (x :: t)
     then (x :: t).take parts.length else []) ++ adjWindows e parts t

/-- The per-sentence loop of `_handle_adjacent`, made explicit about the
in-place `list.sort`: the engine visible to the matcher while scanning a
sentence has the already-visited sentence lists (and the current one)
sorted, the rest still in construction order. -/
def adjLoop (store : List Word) (words : List Nat) (parts : List (List Char)) :
    List (Int × List Nat) → List (Int × List Nat) → List (Int × List Nat) × List Nat
  | acc, [] => (acc, [])
  | acc, (k, l) :: rest =>
    let sorted := sortByIdKey store l
    let eCur : Engine := ⟨store, words, acc ++ (k, sorted) :: rest⟩
    let found := adjWindows eCur parts sorted
    let out := adjLoop store words parts (acc ++ [(k, sorted)]) rest
    (out.1, found ++ out.2)

/-- `_handle_adjacent`: split on " + "; fewer than two parts returns `[]`;
otherwise scan every sentence, sorting its word list in place by id
first.  Returns the updated engine together with the result. -/
def handleAdjacent (e : Engine) (sel : List Char) : Engine × List Nat :=
  let parts := splitOnSep " + ".data sel
  if parts.length < 2 then (e, [])
  else
    let out := adjLoop e.store e.words parts [] e.wordsBySentence
    ({ e with wordsBySentence := out.1 }, out.2)

/-- `_handle_word_order`: split on " ~ "; other than exactly two parts
returns `[]`; else for every pair in the same sentence with strictly
increasing id, append both words. -/
def handleWordOrder (e : Engine) (sel : List Char) : List Nat :=
  match splitOnSep " ~ ".data sel with
  | [a, b] =>
    let fs := matchSingle e (strip a)
    let ss := matchSingle e (strip b)
    fs.flatMap (fun f =>
      ss.flatMap (fun s =>
        if (e.store.getD f default).sentence_id = (e.store.getD s default).sentence_id ∧
           (e.store.getD f default).id < (e.store.getD s default).id
        then [f, s] else []))
  | _ => []

/-- Dispatch of `query` for a comma-free selector, in source order:
`" > "` first, then `" + "`, then `" ~ "`, else a plain simple-selector
match.  Only the adjacency handler updates the engine. -/
def queryNC (e : Engine) (sel : List Char) : Engine × List Nat :=
  if containsSub " > ".data sel then (e, handleParentChild e sel)
  else if containsSub " + ".data sel then handleAdjacent e sel
  else if containsSub " ~ ".data sel then (e, handleWordOrder e sel)
  else (e, matchSingle e sel)

/-- The abnormal outcome of `query`: `Word` is a `@dataclass` with the
default `eq=True` and `frozen=False`, which sets `__hash__` to `None`;
`list(set(results))` therefore raises `TypeError` as soon as `results`
is non-empty (hashing its first element fails). -/
inductive QueryError where
  | unhashableWord
  deriving Repr, DecidableEq

/-- `GreekQueryEngine.query(selector)`.  A selector containing a comma is
split on every comma and the parts are evaluated left to right by the
recursive calls (each part is comma-free, so the recursive call is
exactly the comma-free dispatch `queryNC`), threading the engine state;
the final `list(set(results))` deduplication raises on any non-empty
result list (see `QueryError`) and returns `[]` on an empty one. -/
def query (e : Engine) (sel : String) : Engine × Except QueryError (List Nat) :=
  let s := sel.data
  if containsSub [','] s then
    let out := (splitOnSep [','] s).foldl
      (fun (acc : Engine × List Nat) part =>
        let r := queryNC acc.1 (strip part)
        (r.1, acc.2 ++ r.2)) (e, [])
    if out.2.isEmpty then (out.1, Except.ok []) else (out.1, Except.error QueryError.unhashableWord)
  else
    let r := queryNC e s
    (r.1, Except.ok r.2)

/-! ## Derived notions and concrete fixtures used by the theorems below -/

/-- Index `i` resolves to parent index `j`: the `__init__` linking pass
appends word `i` to the children of word `j` exactly when
`word.parent_id` is a key of `words_by_id` whose entry is word `j`. -/
def resolvesTo (ws : List Word) (j i : Nat) : Bool :=
  lastIdxWithId ws ((ws.getD i default).parent_id) = some j

/-- Fixture: a nominative singular noun, lemma "a", root of sentence 1. -/
def wN1 : Word :=
  { form := "f"
    «lemma» := "a"
    id := 1
    parent_id := 0
    sentence_id := 1
    relation := "PRED"
    part_of_speech := some "noun"
    number := some "singular"
    «case» := some "nominative" }

/-- Fixture: a noun, lemma "b", child of the word with id 1 in
sentence 1, relation ATR. -/
def wN2 : Word :=
  { form := "g"
    «lemma» := "b"
    id := 2
    parent_id := 1
    sentence_id := 1
    relation := "ATR"
    part_of_speech := some "noun" }

/-- Fixture: first word of a sentence whose ids are out of document
order (id 2 before id 1). -/
def wO1 : Word :=
  { form := "x"
    «lemma» := "x"
    id := 2
    parent_id := 0
    sentence_id := 1
    relation := "" }

/-- Fixture: second word of the out-of-order sentence. -/
def wO2 : Word :=
  { form := "y"
    «lemma» := "y"
    id := 1
    parent_id := 0
    sentence_id := 1
    relation := "" }

/-! ## Helper lemmas -/

lemma replace1_eq_filter (l : List Char) : replace1 l = l.filter (fun c => c ≠ '1') := by
  induction l with
  | nil => rfl
  | cons c t ih =>
    by_cases hc : c = '1' <;> simp [replace1, List.filter_cons, hc, ih]

lemma length_modifyAt (l : List α) (i : Nat) (f : α → α) :
    (modifyAt l i f).length = l.length := by
  induction l generalizing i with
  | nil => rfl
  | cons x t ih => cases i <;> simp [modifyAt, ih]

lemma getD_modifyAt_ne (l : List α) (f : α → α) (d : α) (i j : Nat) (h : j ≠ i) :
    (modifyAt l i f).getD j d = l.getD j d := by
  induction l generalizing i j with
  | nil => rfl
  | cons x t ih =>
    cases i with
    | zero =>
      cases j with
      | zero => exact absurd rfl h
      | succ j => simp [modifyAt]
    | succ i =>
      cases j with
      | zero => simp [modifyAt]
      | succ j => simpa [modifyAt] using ih i j (by omega)

lemma getD_modifyAt_self (l : List α) (f : α → α) (d : α) (i : Nat) (h : i < l.length) :
    (modifyAt l i f).getD i d = f (l.getD i d) := by
  induction l generalizing i with
  | nil => simp at h
  | cons x t ih =>
    cases i with
    | zero => simp [modifyAt]
    | succ i => simpa [modifyAt] using ih i (by simpa using h)

lemma map_modifyAt (l : List α) (i : Nat) (f : α → α) (g : α → β)
    (hg : ∀ x, g (f x) = g x) : (modifyAt l i f).map g = l.map g := by
  induction l generalizing i with
  | nil => rfl
  | cons x t ih => cases i <;> simp [modifyAt, hg, ih]

lemma lastIdxWithId_lt_length (ws : List Word) (k : Int) (j : Nat)
    (h : lastIdxWithId ws k = some j) : j < ws.length := by
  induction ws generalizing j with
  | nil => simp [lastIdxWithId] at h
  | cons w t ih =>
    unfold lastIdxWithId at h
    cases hm : lastIdxWithId t k with
    | some j' =>
      rw [hm] at h
      cases h
      have := ih j' hm
      simp only [List.length_cons]
      omega
    | none =>
      rw [hm] at h
      by_cases hw : w.id = k
      · rw [if_pos hw] at h
        cases h
        simp
      · rw [if_neg hw] at h
        cases h

lemma lastIdxWithId_congr (ws ws' : List Word)
    (h : ws.map Word.id = ws'.map Word.id) (k : Int) :
    lastIdxWithId ws k = lastIdxWithId ws' k := by
  induction ws generalizing ws' with
  | nil =>
    cases ws' with
    | nil => rfl
    | cons w' t' => simp at h
  | cons w t ih =>
    cases ws' with
    | nil => simp at h
    | cons w' t' =>
      simp only [List.map_cons, List.cons.injEq] at h
      unfold lastIdxWithId
      rw [ih t' h.2, h.1]

lemma lastIdxWithId_eq_none (ws : List Word) (k : Int)
    (h : k ∉ ws.map Word.id) : lastIdxWithId ws k = none := by
  induction ws with
  | nil => rfl
  | cons w t ih =>
    simp only [List.map_cons, List.mem_cons, not_or] at h
    unfold lastIdxWithId
    rw [ih h.2, if_neg (fun hw => h.1 hw.symm)]

lemma lastIdxWithId_nodup (ws : List Word) (h : (ws.map Word.id).Nodup)
    (j : Nat) (hj : j < ws.length) :
    lastIdxWithId ws ((ws.getD j default).id) = some j := by
  induction ws generalizing j with
  | nil => simp at hj
  | cons w t ih =>
    simp only [List.map_cons, List.nodup_cons] at h
    cases j with
    | zero =>
      unfold lastIdxWithId
      rw [lastIdxWithId_eq_none t _ (by simpa using h.1)]
      simp
    | succ j =>
      have hj' : j < t.length := by simpa using hj
      have := ih h.2 j hj'
      unfold lastIdxWithId
      simp only [List.getD_cons_succ]
      rw [this]

lemma length_processOne (ws st : List Word) (i : Nat) :
    (processOne ws st i).length = st.length := by
  unfold processOne
  cases lastIdxWithId ws ((ws.getD i default).parent_id) with
  | none => rfl
  | some p => simp [length_modifyAt]

lemma length_linkList (ws : List Word) (idxs : List Nat) (st : List Word) :
    (linkList ws st idxs).length = st.length := by
  induction idxs generalizing st with
  | nil => rfl
  | cons i r ih => simp [linkList, ih, length_processOne]

lemma map_id_linkList (ws : List Word) (idxs : List Nat) (st : List Word) :
    (linkList ws st idxs).map Word.id = st.map Word.id := by
  induction idxs generalizing st with
  | nil => rfl
  | cons i r ih =>
    show (linkList ws (processOne ws st i) r).map Word.id = st.map Word.id
    rw [ih]
    unfold processOne
    cases lastIdxWithId ws ((ws.getD i default).parent_id) with
    | none => rfl
    | some p => exact map_modifyAt st p _ Word.id (fun x => rfl)

lemma linkList_getD (ws : List Word) (idxs : List Nat) (st : List Word)
    (j : Nat) (hj : j < st.length) (d : Word) :
    (linkList ws st idxs).getD j d =
      { st.getD j d with
        children := (st.getD j d).children ++ idxs.filter (resolvesTo ws j) } := by
  induction idxs generalizing st with
  | nil => simp [linkList]
  | cons i r ih =>
    show (linkList ws (processOne ws st i) r).getD j d = _
    have hj' : j < (processOne ws st i).length := by rwa [length_processOne]
    rw [ih (processOne ws st i) hj']
    unfold processOne resolvesTo
    cases hm : lastIdxWithId ws ((ws.getD i default).parent_id) with
    | none =>
      simp only [List.filter_cons, resolvesTo, hm]
      simp
    | some p =>
      by_cases hpj : p = j
      · subst hpj
        rw [getD_modifyAt_self st _ d p hj]
        simp only [List.filter_cons, resolvesTo, hm]
        simp [List.append_assoc]
      · rw [getD_modifyAt_ne st _ d p j (by omega)]
        simp only [List.filter_cons, resolvesTo, hm]
        simp [hpj]

lemma padTo9_pad (s : List Char) :
    padTo9 (s ++ List.replicate (9 - s.length) '-') = padTo9 s := by
  unfold padTo9
  by_cases h : s.length < 9
  · have hl : (s ++ List.replicate (9 - s.length) '-').length = 9 := by
      simp only [List.length_append, List.length_replicate]
      omega
    rw [if_pos h, if_neg (by omega)]
  · have h0 : 9 - s.length = 0 := by omega
    simp [h0]

lemma parse_postag_congr (s t : List Char) (h : padTo9 s = padTo9 t) :
    parse_postag s = parse_postag t := by
  simp only [parse_postag, h]

/-! ## Claim theorems -/

/-- C5 counterexample: building a corpus from a document whose single
word has source lemma "a1b1" stores the lemma "ab" — the second '1' is
removed as well, whereas the claim ("exactly the first occurrence of any
lemma-disambiguation digit marker stripped; every other character,
including later digits, is preserved") requires "ab1" to be stored. -/
theorem C5_counterexample :
    ((xmlToWords [(1, [{ id := 1, lemma? := some "a1b1" }])]).map Word.«lemma») = ["ab"] ∧
    ("ab" : String) ≠ "ab1" :=
  ⟨rfl, by decide⟩

/-- C5 (amended): during corpus building each word's stored lemma equals
the source lemma with EVERY occurrence of the character '1' removed
(Python `lemma.replace('1', '')`); all other characters, including other
digits, are preserved in order. -/
theorem C5_lemma_strips_every_one (sid : Int) (a : WordAttrs) :
    (mkWord sid a).«lemma».data = ((a.lemma?.getD "").data).filter (fun c => c ≠ '1') := by
  show replace1 (a.lemma?.getD "").data = _
  exact replace1_eq_filter _

/-- C7: `parse_postag` never errors: decoding any code string equals
decoding the same string right-padded with '-' to width nine; a position
whose (padded) character is not mapped by that category's table — in
particular any unrecognized non-'-' character — decodes to an absent
value; and the function is deterministic and pure (equal inputs give
equal output records). -/
theorem C7_parse_postag_total (s : List Char) (n : Nat) (hn : n < 9) :
    parse_postag s = parse_postag (s ++ List.replicate (9 - s.length) '-') ∧
    (tableOf n ((padTo9 s).getD n '-') = none → Features.get (parse_postag s) n = none) ∧
    (∀ t : List Char, t = s → parse_postag t = parse_postag s) := by
  refine ⟨(parse_postag_congr _ _ (padTo9_pad s)).symm, ?_, fun t ht => by rw [ht]⟩
  intro htab
  interval_cases n <;>
    simp only [parse_postag, Features.get, tableOf] at htab ⊢ <;>
    split_ifs with hc <;> simp_all

/-- C7 witness: decoding "z--------" (unrecognized part-of-speech
character 'z') yields an absent part of speech. -/
theorem C7_parse_postag_total_witness :
    (0 < 9 ∧ tableOf 0 ((padTo9 "z--------".data).getD 0 '-') = none) ∧
    Features.get (parse_postag "z--------".data) 0 = none :=
  ⟨⟨by decide, by decide⟩,
   (C7_parse_postag_total "z--------".data 0 (by decide)).2.1 (by decide)⟩

/-- C2: for a document whose declared word identifiers are pairwise
distinct (the spec's data model: "a document-unique integer identifier"),
building the corpus and looking up any word's declared identifier in the
by-identifier index returns exactly that word (by identity: the same
store index the word was created at). -/
theorem C2_index_completeness (doc : List (Int × List WordAttrs))
    (h : ((xmlToWords doc).map Word.id).Nodup)
    (j : Nat) (hj : j < (xmlToWords doc).length) :
    (engineInit (xmlToWords doc)).wordsById (((xmlToWords doc).getD j default).id) = some j := by
  have hm : (linkChildren (xmlToWords doc)).map Word.id = (xmlToWords doc).map Word.id :=
    map_id_linkList (xmlToWords doc) (List.range (xmlToWords doc).length) (xmlToWords doc)
  show lastIdxWithId (linkChildren (xmlToWords doc)) _ = some j
  rw [lastIdxWithId_congr _ _ hm]
  exact lastIdxWithId_nodup _ h j hj

/-- C2 witness: a two-word document with ids 1 and 2; looking up the
second word's id returns index 1. -/
theorem C2_index_completeness_witness :
    (engineInit (xmlToWords [(1, [{ id := 1 }, { id := 2 }])])).wordsById
      (((xmlToWords [(1, [{ id := 1 }, { id := 2 }])]).getD 1 default).id) = some 1 :=
  C2_index_completeness [(1, [{ id := 1 }, { id := 2 }])] (by decide) 1 (by decide)

/-- C10: engine construction mutates the supplied words: over fresh words
(all children lists empty), after one construction each word whose head
reference resolves occurs exactly once in its parent's children list; a
second construction over the same (now linked) words appends every such
child again, so it then occurs twice — construction is not repeatable
over shared words. -/
theorem C10_relinking_duplicates_children (ws : List Word)
    (hfresh : ∀ w ∈ ws, w.children = [])
    (i p : Nat) (hi : i < ws.length)
    (hp : resolvesTo ws p i = true) :
    (((engineInit ws).store.getD p default).children).count i = 1 ∧
    (((engineInit (linkChildren ws)).store.getD p default).children).count i = 2 := by
  have hpProp : lastIdxWithId ws ((ws.getD i default).parent_id) = some p := by
    simpa [resolvesTo] using hp
  have hplt : p < ws.length := lastIdxWithId_lt_length ws _ p hpProp
  have hmemp : ws.getD p default ∈ ws := by
    rw [List.getD_eq_getElem ws default hplt]
    exact List.getElem_mem hplt
  have hchp : (ws.getD p default).children = [] := hfresh _ hmemp
  have hF : i ∈ (List.range ws.length).filter (resolvesTo ws p) :=
    List.mem_filter.mpr ⟨List.mem_range.mpr hi, hp⟩
  have hFnodup : ((List.range ws.length).filter (resolvesTo ws p)).Nodup :=
    List.Nodup.filter _ (List.nodup_range ws.length)
  have hcount1 : ((List.range ws.length).filter (resolvesTo ws p)).count i = 1 :=
    List.count_eq_one_of_mem hFnodup hF
  have hs1 : (linkChildren ws).getD p default =
      { ws.getD p default with
        children := (ws.getD p default).children ++
          (List.range ws.length).filter (resolvesTo ws p) } :=
    linkList_getD ws (List.range ws.length) ws p hplt default
  constructor
  · show (((linkChildren ws).getD p default).children).count i = 1
    rw [hs1]
    simp only [hchp, List.nil_append]
    exact hcount1
  · -- second construction over the already-linked words
    have hlen' : (linkChildren ws).length = ws.length :=
      length_linkList ws (List.range ws.length) ws
    have hid' : (linkChildren ws).map Word.id = ws.map Word.id :=
      map_id_linkList ws (List.range ws.length) ws
    have hres : ∀ q, q < ws.length → resolvesTo (linkChildren ws) p q = resolvesTo ws p q := by
      intro q hq
      have hq' : (linkChildren ws).getD q default =
          { ws.getD q default with
            children := (ws.getD q default).children ++
              (List.range ws.length).filter (resolvesTo ws q) } :=
        linkList_getD ws (List.range ws.length) ws q hq default
      unfold resolvesTo
      rw [hq', lastIdxWithId_congr _ _ hid']
  -- parent_id of the record update equals the original parent_id
    have hs2 : (linkChildren (linkChildren ws)).getD p default =
        { (linkChildren ws).getD p default with
          children := ((linkChildren ws).getD p default).children ++
            (List.range (linkChildren ws).length).filter (resolvesTo (linkChildren ws) p) } :=
      linkList_getD (linkChildren ws) (List.range (linkChildren ws).length)
        (linkChildren ws) p (by rwa [hlen']) default
    have hfilters : (List.range (linkChildren ws).length).filter (resolvesTo (linkChildren ws) p) =
        (List.range ws.length).filter (resolvesTo ws p) := by
      rw [hlen']
      exact List.filter_congr (fun q hq => hres q (List.mem_range.mp hq))
    show (((linkChildren (linkChildren ws)).getD p default).children).count i = 2
    rw [hs2, hfilters, hs1]
    simp only [hchp, List.nil_append, List.count_append]
    omega

/-- C10 witness: over the two fixture words (child at index 1 resolving
to parent index 0), one construction gives one occurrence, a second
construction gives two. -/
theorem C10_relinking_duplicates_children_witness :
    (((engineInit [wN1, wN2]).store.getD 0 default).children).count 1 = 1 ∧
    (((engineInit (linkChildren [wN1, wN2])).store.getD 0 default).children).count 1 = 2 :=
  C10_relinking_duplicates_children [wN1, wN2] (by decide) 1 0 (by decide) (by decide)

/-- C1: over a one-word corpus (the word's lemma is "a", so the selector
"a" matches it), the comma selector "a, a" does not return the union —
it raises: `Word` is a non-frozen `eq=True` dataclass, hence unhashable,
and `list(set(results))` raises `TypeError` on the non-empty result
list, even though each branch on its own succeeds. -/
theorem C1_comma_union_raises :
    (query (engineInit [wN1]) "a, a").2 = Except.error QueryError.unhashableWord ∧
    (query (engineInit [wN1]) "a").2 = Except.ok [0] :=
  ⟨rfl, rfl⟩

/-- C4: an adjacency query mutates the corpus: over a sentence whose
words were supplied with ids out of document order (2 then 1), the
by-sentence sequence is [0, 1] after construction, and evaluating the
selector " + " (an adjacency query) sorts it in place to [1, 0] —
`query` is not free of side effects on the corpus. -/
theorem C4_adjacency_query_mutates_corpus :
    (engineInit [wO1, wO2]).wordsBySentence = [(1, [0, 1])] ∧
    (query (engineInit [wO1, wO2]) " + ").1.wordsBySentence = [(1, [1, 0])] :=
  ⟨rfl, rfl⟩

/-- C3 counterexample: the word `wN1` has case "nominative" but number
"singular", yet it matches the selector
"[case=nominative][number=plural]" (and the query over a one-word corpus
returns it): only the first attribute predicate is checked, the second
is stripped unverified, contradicting "every attribute predicate must
hold, each independently falsifiable". -/
theorem C3_counterexample :
    wordMatchesSelector (engineInit [wN1]) wN1 "[case=nominative][number=plural]".data = true ∧
    wN1.number = some "singular" ∧ wN1.number ≠ some "plural" ∧
    (query (engineInit [wN1]) "[case=nominative][number=plural]").2 = Except.ok [0] :=
  ⟨rfl, rfl, by decide, rfl⟩

/-- C3 (amended): only the FIRST `[name=value]` attribute predicate of a
simple selector is enforced (by exact equality of the decoded attribute
value, no normalization): whenever `re.search` finds an attribute
predicate, a word matching the selector must satisfy that first
predicate; every further attribute predicate is stripped unchecked. -/
theorem C3_first_attr_must_match (e : Engine) (w : Word) (sel n v : List Char)
    (hs : searchAttr sel = some (n, v))
    (hm : wordMatchesSelector e w sel = true) :
    w.attrGet n = some v := by
  have h2 : wmStep e (wmGo e sel.length) w sel = true := hm
  simp only [wmStep] at h2
  rw [hs] at h2
  dsimp only at h2
  by_cases ha : w.attrGet n = some v
  · exact ha
  · rw [if_neg ha] at h2
    dsimp only at h2
    exact Bool.noConfusion h2

/-- C3 witness: the first attribute predicate of "[case=nominative]" is
enforced on `wN1`. -/
theorem C3_first_attr_must_match_witness :
    wN1.attrGet "case".data = some "nominative".data :=
  C3_first_attr_must_match (engineInit [wN1]) wN1 "[case=nominative]".data
    "case".data "nominative".data (by decide) (by decide)

lemma query_no_comma (e : Engine) (s : String) (hc : containsSub [','] s.data = false) :
    query e s = ((queryNC e s.data).1, Except.ok (queryNC e s.data).2) := by
  unfold query
  rw [if_neg (by simp [hc])]

lemma handleParentChild_ne2 (e : Engine) (sel : List Char)
    (h : (splitOnSep " > ".data sel).length ≠ 2) : handleParentChild e sel = [] := by
  unfold handleParentChild
  split
  · rename_i a b heq
    exact absurd (by rw [heq]; rfl) h
  · rfl

lemma handleWordOrder_ne2 (e : Engine) (sel : List Char)
    (h : (splitOnSep " ~ ".data sel).length ≠ 2) : handleWordOrder e sel = [] := by
  unfold handleWordOrder
  split
  · rename_i a b heq
    exact absurd (by rw [heq]; rfl) h
  · rfl

/-- C6 counterexample: no selector error is raised: a " > " combinator
with an empty (missing) left operand evaluates normally — the empty side
matches every word, so " > :noun" returns the noun child — and an arity
mismatch ("a > b > c") returns the empty result instead of failing. -/
theorem C6_counterexample :
    (query (engineInit [wN1, wN2]) " > :noun").2 = Except.ok [1] ∧
    (query (engineInit [wN1, wN2]) "a > b > c").2 = Except.ok [] :=
  ⟨rfl, rfl⟩

/-- C6 (amended): `query` never raises a selector error: every comma-free
selector returns normally (the normal comma-free dispatch result); a
" > " (resp. " ~ ") combinator whose split does not have exactly two
operands yields the empty result rather than an error, and a missing
operand (empty side) acts as a match-all simple selector; malformed
predicate syntax is never a hard error. -/
theorem C6_arity_mismatch_empty_never_error (e : Engine) (s : String)
    (hc : containsSub [','] s.data = false) :
    (query e s).2 = Except.ok (queryNC e s.data).2 ∧
    (containsSub " > ".data s.data = true →
      (splitOnSep " > ".data s.data).length ≠ 2 →
      (query e s).2 = Except.ok []) ∧
    (containsSub " > ".data s.data = false →
      containsSub " + ".data s.data = false →
      containsSub " ~ ".data s.data = true →
      (splitOnSep " ~ ".data s.data).length ≠ 2 →
      (query e s).2 = Except.ok []) := by
  refine ⟨by rw [query_no_comma e s hc], ?_, ?_⟩
  · intro hg hlen
    rw [query_no_comma e s hc]
    have h2 : (queryNC e s.data).2 = [] := by
      unfold queryNC
      rw [if_pos hg]
      exact handleParentChild_ne2 e s.data hlen
    rw [h2]
  · intro hg hp ht hlen
    rw [query_no_comma e s hc]
    have h2 : (queryNC e s.data).2 = [] := by
      unfold queryNC
      rw [if_neg (by simp [hg]), if_neg (by simp [hp]), if_pos ht]
      exact handleWordOrder_ne2 e s.data hlen
    rw [h2]

/-- C6 witness: the three-operand selector "a > b > c" returns the empty
result, not an error. -/
theorem C6_arity_mismatch_empty_never_error_witness :
    (query (engineInit [wN1]) "a > b > c").2 = Except.ok [] :=
  (C6_arity_mismatch_empty_never_error (engineInit [wN1]) "a > b > c"
    (by decide)).2.1 (by decide) (by decide)

/-- C8 counterexample: over the fixture corpus (a noun whose child is
itself a noun), the selector ":noun > :noun" returns the child word,
which itself matches the parent selector ":noun" — contradicting "never
returns a word that matches A itself". -/
theorem C8_counterexample :
    (query (engineInit [wN1, wN2]) ":noun > :noun").2 = Except.ok [1] ∧
    wordMatchesSelector (engineInit [wN1, wN2])
      ((engineInit [wN1, wN2]).store.getD 1 default) ":noun".data = true :=
  ⟨rfl, rfl⟩

/-- C8 (amended): every word returned by a "A > B" query matches the
simple selector B and is a literal child (a member of the children list,
one structural hop) of some word matching simple selector A; such a
returned child may, however, itself also match A. -/
theorem C8_parent_child_soundness (e : Engine) (s : String) (a b : List Char) (i : Nat)
    (hc : containsSub [','] s.data = false)
    (hg : containsSub " > ".data s.data = true)
    (hsp : splitOnSep " > ".data s.data = [a, b])
    (hi : i ∈ handleParentChild e s.data) :
    (query e s).2 = Except.ok (handleParentChild e s.data) ∧
    wordMatchesSelector e (e.store.getD i default) (strip b) = true ∧
    ∃ p, p ∈ matchSingle e (strip a) ∧ i ∈ (e.store.getD p default).children := by
  have hq : (query e s).2 = Except.ok (handleParentChild e s.data) := by
    rw [query_no_comma e s hc]
    have h2 : queryNC e s.data = (e, handleParentChild e s.data) := by
      unfold queryNC
      rw [if_pos hg]
    rw [h2]
  unfold handleParentChild at hi
  rw [hsp] at hi
  dsimp only at hi
  rw [List.mem_flatMap] at hi
  obtain ⟨p, hpmem, hchild⟩ := hi
  rw [List.mem_filter] at hchild
  exact ⟨hq, hchild.2, p, hpmem, hchild.1⟩

/-- C8 witness: in the fixture corpus the returned word 1 of
":noun > :noun" matches the child selector and is a child of the
parent-matching word 0. -/
theorem C8_parent_child_soundness_witness :
    wordMatchesSelector (engineInit [wN1, wN2])
      ((engineInit [wN1, wN2]).store.getD 1 default) (strip ":noun".data) = true ∧
    ∃ p, p ∈ matchSingle (engineInit [wN1, wN2]) (strip ":noun".data) ∧
      1 ∈ ((engineInit [wN1, wN2]).store.getD p default).children :=
  (C8_parent_child_soundness (engineInit [wN1, wN2]) ":noun > :noun"
    ":noun".data ":noun".data 1 (by decide) (by decide) (by decide) (by decide)).2

lemma wm_root (e : Engine) (w : Word) :
    wordMatchesSelector e w ":root".data =
      if w.parent_id ≠ 0 ∨ w.relation = "AuxK" then false else true := by
  show wmStep e (wmGo e (List.length ":root".data)) w ":root".data =
    if w.parent_id ≠ 0 ∨ w.relation = "AuxK" then false else true
  simp only [wmStep]
  rw [show searchAttr ":root".data = none from rfl]
  dsimp only
  rw [if_pos (show containsSub rootTok [':', 'r', 'o', 'o', 't'] = true from rfl)]
  by_cases h : w.parent_id ≠ 0 ∨ w.relation = "AuxK"
  · rw [if_pos h, if_pos h]
  · rw [if_neg h, if_neg h]
    rfl

/-- C9: a word matches ":root" exactly when its parent reference is 0
and its relation label is not the exempted tag "AuxK"; consequently
`query(":root")` evaluates as a plain simple-selector match, and every
corpus word with head id 0 whose relation is not "AuxK" is included in
its result. -/
theorem C9_root_matching (e : Engine) (w : Word) (i : Nat)
    (hw : i ∈ e.words)
    (hp : (e.store.getD i default).parent_id = 0)
    (hr : (e.store.getD i default).relation ≠ "AuxK") :
    (wordMatchesSelector e w ":root".data = true ↔
      (w.parent_id = 0 ∧ w.relation ≠ "AuxK")) ∧
    (query e ":root").2 = Except.ok (matchSingle e ":root".data) ∧
    i ∈ matchSingle e ":root".data := by
  have hiff : ∀ w' : Word, wordMatchesSelector e w' ":root".data = true ↔
      (w'.parent_id = 0 ∧ w'.relation ≠ "AuxK") := by
    intro w'
    rw [wm_root e w']
    by_cases h : w'.parent_id ≠ 0 ∨ w'.relation = "AuxK"
    · rw [if_pos h]
      constructor
      · exact fun hf => absurd hf (by simp)
      · rintro ⟨h1, h2⟩
        rcases h with h | h
        · exact absurd h1 h
        · exact absurd h h2
    · rw [if_neg h]
      push_neg at h
      simp [h.1, h.2]
  refine ⟨hiff w, ?_, ?_⟩
  · rw [query_no_comma e ":root" (by decide)]
    have h2 : queryNC e ":root".data = (e, matchSingle e ":root".data) := by
      unfold queryNC
      rw [if_neg (by decide), if_neg (by decide), if_neg (by decide)]
    rw [h2]
  · exact List.mem_filter.mpr ⟨hw, (hiff _).mpr ⟨hp, hr⟩⟩

/-- C9 witness: in the fixture corpus, word 0 (head 0, relation PRED)
matches ":root" and is included in the query result. -/
theorem C9_root_matching_witness :
    (wordMatchesSelector (engineInit [wN1, wN2]) wN1 ":root".data = true ↔
      (wN1.parent_id = 0 ∧ wN1.relation ≠ "AuxK")) ∧
    (query (engineInit [wN1, wN2]) ":root").2 =
      Except.ok (matchSingle (engineInit [wN1, wN2]) ":root".data) ∧
    0 ∈ matchSingle (engineInit [wN1, wN2]) ":root".data :=
  C9_root_matching (engineInit [wN1, wN2]) wN1 0 (by decide) (by decide) (by decide)

end Pseudw
